import Mathlib

/-!
# mystl::vector over an explicit heap

A shallow embedding of `vector.h`, `allocator.h`, `construct.h` and the parts of
`iterator.h` the container uses.

* Addresses are natural numbers counted in slots of `T`; `0` is `nullptr`.
* A heap maps every slot to `some v` (a live object holding `v`) or `none`
  (raw storage), records the blocks handed out by `::operator new`, and keeps a
  break above which no address has ever been handed out.
* A vector is its three cursors `begin_`, `end_`, `cap_`.  The accessors
  `begin()` and `end()` return the cursor by value (`iterator begin() { return
  begin_; }`), so the statements the source writes through them
  (`end() = begin() + len`, `rhs.begin() = nullptr`, `++end()`, `--end()`) act on
  the value returned and store nothing in `begin_` or `end_` (for
  `iterator = T*` a compiler rejects them once the member is instantiated; in no
  reading is a member written). In the bodies the sources give, only `cap_`,
  which they name directly, is written, and only a constructor's member
  initialisers set `begin_` and `end_`; the members the sources declare without
  defining are modelled from the spec and set all three cursors.
* `MYSTL_DEBUG` is an assertion that vanishes in release builds; the operations
  below are the release-build bodies, and the asserted conditions appear as
  hypotheses of the theorems that need them.
* `size_type` is `w` bits wide and `sizeof(T)` is at least one byte (`Cfg`).
-/

namespace mystl

/-! ## Definitions -/

/-- Conditions the library raises. -/
inductive Exn where
  | length_error
  | out_of_range
  | bad_alloc
  deriving DecidableEq, Repr

/-- Platform parameters: width of `size_type` in bits and `sizeof(T)` in bytes. -/
structure Cfg where
  w : Nat
  sizeofT : Nat
  sizeofT_pos : 0 < sizeofT

/-- The null pointer. A `T*` is a natural number, counted in slots. -/
def nullptr : Nat := 0

/-- The heap: slot contents, blocks owned (base address, byte count), break. -/
structure Heap (α : Type) where
  cell : Nat → Option α
  blocks : List (Nat × Nat)
  brk : Nat

/-- A heap with no live object and no block. -/
def Heap.empty {α : Type} : Heap α := ⟨fun _ => none, [], 0⟩

/-- Write the content of one slot. -/
def Heap.store {α : Type} (h : Heap α) (p : Nat) (x : Option α) : Heap α :=
  ⟨fun q => if q = p then x else h.cell q, h.blocks, h.brk⟩

/-- The global `::operator new(bytes)`: a fresh block above the break, never null,
never initialised. The heap of this embedding is unbounded: the request always
succeeds, and the `bad_alloc` outcome of a real `operator new` is outside the
embedding (no theorem below speaks about it). -/
def operator_new {α : Type} (c : Cfg) (h : Heap α) (bytes : Nat) : Heap α × Nat :=
  let p := h.brk + 1
  (⟨h.cell, (p, bytes) :: h.blocks, p + (bytes + c.sizeofT - 1) / c.sizeofT⟩, p)

/-- The global `::operator delete(ptr)`: the block based at `ptr` is released. -/
def operator_delete {α : Type} (h : Heap α) (ptr : Nat) : Heap α :=
  ⟨h.cell, h.blocks.filter (fun b => b.1 ≠ ptr), h.brk⟩

/-- The byte count `n * sizeof(T)` as `allocate(n)` computes it, in `size_t`. -/
def alloc_bytes (c : Cfg) (n : Nat) : Nat := (n * c.sizeofT) % 2 ^ c.w

/-- The function `allocator<T>::allocate(size_type n)`. -/
def allocate {α : Type} (c : Cfg) (h : Heap α) (n : Nat) : Heap α × Nat :=
  if n = 0 then (h, nullptr) else operator_new c h (alloc_bytes c n)

/-- The function `allocator<T>::deallocate(T* ptr, size_type n)`. -/
def deallocate {α : Type} (h : Heap α) (ptr : Nat) (_n : Nat) : Heap α :=
  if ptr = nullptr then h else operator_delete h ptr

/-- The function `construct(T1* ptr, const T2& value)`: placement construction. -/
def construct {α : Type} (h : Heap α) (ptr : Nat) (value : α) : Heap α :=
  h.store ptr (some value)

/-- The function `destroy(T* pointer)` for a `T` with a destructor
(`destroy_one(pointer, std::false_type)`): the object's lifetime ends. -/
def destroy {α : Type} (h : Heap α) (pointer : Nat) : Heap α :=
  if pointer ≠ nullptr then h.store pointer none else h

/-- The loop of `destroy_cat(first, last, m_false_type)`, run `n = last - first` times. -/
def destroy_cat {α : Type} : Nat → Heap α → Nat → Heap α
  | 0, h, _ => h
  | n + 1, h, first => destroy_cat n (destroy h first) (first + 1)

/-- The function `destroy(ForwardIter first, ForwardIter last)`, in the reading
its dispatcher aims at: the loop of `destroy_cat(first, last, m_false_type)`. As
written the dispatcher hands a `std::is_trivially_destructible` tag to overloads
that take `m_true_type` / `m_false_type`, which no instantiation accepts; spec
section 4.1 gives the behaviour taken here (the destructor is invoked on each
object of the half-open range). -/
def destroy_range {α : Type} (h : Heap α) (first last : Nat) : Heap α :=
  destroy_cat (last - first) h first

/-- Forward element-by-element transfer of `n` slots from `src` to `dst`:
slot `dst + i` receives what slot `src + i` holds when the loop reaches it. -/
def copy_cells {α : Type} : Nat → Heap α → Nat → Nat → Heap α
  | 0, h, _, _ => h
  | n + 1, h, src, dst => copy_cells n (h.store dst (h.cell src)) (src + 1) (dst + 1)

/-- Backward transfer of `n` slots: slot `dlast - 1 - i` receives what slot
`slast - 1 - i` holds when the loop reaches it, for `i = 0, 1, ..`. -/
def copy_cells_backward {α : Type} : Nat → Heap α → Nat → Nat → Heap α
  | 0, h, _, _ => h
  | n + 1, h, slast, dlast =>
      copy_cells_backward n (h.store (dlast - 1) (h.cell (slast - 1))) (slast - 1) (dlast - 1)

/-- Modelled from the spec: `mystl::copy` (header absent from the sources), the
forward copy-assignment of `[first, last)` onto `result`; returns the end of the
written range. -/
def copy {α : Type} (h : Heap α) (first last result : Nat) : Heap α × Nat :=
  (copy_cells (last - first) h first result, result + (last - first))

/-- Modelled from the spec: `mystl::copy_backward` (header absent from the
sources), the backward copy of `[first, last)` ending at `result`; returns the
start of the written range. -/
def copy_backward {α : Type} (h : Heap α) (first last result : Nat) : Heap α × Nat :=
  (copy_cells_backward (last - first) h last result, result - (last - first))

/-- Modelled from the spec: `mystl::uninitialized_copy` (header absent from the
sources): copy-constructs `[first, last)` into raw storage at `result`. -/
def uninitialized_copy {α : Type} (h : Heap α) (first last result : Nat) : Heap α × Nat :=
  (copy_cells (last - first) h first result, result + (last - first))

/-- Modelled from the spec: `mystl::uninitialized_move` (header absent from the
sources): move-constructs `[first, last)` into raw storage at `result`. The
moved-from objects stay live; their value is left as it was. -/
def uninitialized_move {α : Type} (h : Heap α) (first last result : Nat) : Heap α × Nat :=
  (copy_cells (last - first) h first result, result + (last - first))

/-- The three cursors of `vector<T>`. -/
structure vector where
  begin_ : Nat
  end_ : Nat
  cap_ : Nat
  deriving DecidableEq, Repr

/-- The member `vector::size`: `static_cast<size_type>(end() - begin())`, exact
for `begin_ <= end_`. -/
def vector.size (v : vector) : Nat := v.end_ - v.begin_

/-- The member `vector::capacity`: `static_cast<size_type>(cap_ - begin())`, exact
for `begin_ <= cap_`. -/
def vector.capacity (v : vector) : Nat := v.cap_ - v.begin_

/-- The member `vector::empty`. -/
def vector.empty (v : vector) : Bool := v.begin_ == v.end_

/-- The cursor ordering of the data model, `begin_ <= end_ <= cap_`. -/
def vector.wf (v : vector) : Prop := v.begin_ ≤ v.end_ ∧ v.end_ ≤ v.cap_

/-- The cursor ordering can be checked on any concrete vector. -/
instance vector.wf_decidable (v : vector) : Decidable v.wf :=
  inferInstanceAs (Decidable (v.begin_ ≤ v.end_ ∧ v.end_ ≤ v.cap_))

/-- The member `vector::max_size`: `static_cast<size_type>(-1) / sizeof(T)`. -/
def max_size (c : Cfg) : Nat := (2 ^ c.w - 1) / c.sizeofT

/-- The member `vector::operator[]`: the reference `*(begin() + n)`, as an address. -/
def vector.index (v : vector) (n : Nat) : Nat := v.begin_ + n

/-- The elements of the live range `[begin_, end_)`, slot by slot. -/
def vector.elems {α : Type} (h : Heap α) (v : vector) : List (Option α) :=
  (List.range v.size).map (fun i => h.cell (v.begin_ + i))

/-- Modelled from the spec: `vector::try_init` (declared, not defined in the
sources): the default-constructed vector is the empty/unallocated state, all
three cursors null; the buffer is allocated lazily. -/
def try_init {α : Type} (h : Heap α) : Heap α × vector :=
  (h, ⟨nullptr, nullptr, nullptr⟩)

/-- Modelled from the spec: `vector::destroy_and_recover` (declared, not defined
in the sources): destroys the live elements `[first, last)` and releases the
buffer of `n` slots based at `first`. -/
def destroy_and_recover {α : Type} (h : Heap α) (first last : Nat) (n : Nat) : Heap α :=
  deallocate (destroy_range h first last) first n

/-- Modelled from the spec: `vector::get_new_cap` (declared, not defined in the
sources): the larger of `old_capacity * 1.5` and `old_capacity + add_size`, with a
floor of 1, clamped to the maximum size. -/
def get_new_cap (c : Cfg) (v : vector) (add_size : Nat) : Nat :=
  min (max (max (v.capacity + v.capacity / 2) (v.capacity + add_size)) 1) (max_size c)

/-- Modelled from the spec: the length violation of section 7 on the growth
path. It is raised, before any mutation, when the requested size
`size() + add_size` exceeds `max_size()`. -/
def growth_raises (c : Cfg) (v : vector) (add_size : Nat) : Bool :=
  decide (max_size c < v.size + add_size)

/-- Modelled from the spec: `vector::reallocate_insert` (declared, not defined in
the sources): allocate a buffer of the grown capacity, migrate `[begin_, pos)`,
construct the new element in place, migrate `[pos, end_)` behind it, destroy the
old elements, release the old buffer and adopt the new one. When the length
violation is raised (`growth_raises`) nothing is mutated: heap and cursors come
back as they were; the condition itself is told by `growth_raises`, not by the
result. -/
def reallocate_insert {α : Type} (c : Cfg) (h : Heap α) (v : vector) (pos : Nat) (value : α) :
    Heap α × vector :=
  if growth_raises c v 1 then (h, v)
  else
    let new_size := get_new_cap c v 1
    let a := allocate c h new_size
    let new_begin := a.2
    let m1 := uninitialized_move a.1 v.begin_ pos new_begin
    let h2 := construct m1.1 m1.2 value
    let m2 := uninitialized_move h2 pos v.end_ (m1.2 + 1)
    let h3 := destroy_and_recover m2.1 v.begin_ v.end_ v.capacity
    (h3, ⟨new_begin, m2.2, new_begin + new_size⟩)

/-- The member `vector::push_back(const value_type&)`. With spare capacity the
element is constructed at `end_`; the `++end()` that follows increments the value
`end()` returned and leaves the member `end_` as it was. -/
def push_back {α : Type} (c : Cfg) (h : Heap α) (v : vector) (value : α) : Heap α × vector :=
  if v.end_ ≠ v.cap_ then
    let h1 := construct h v.end_ value
    let _end_value := v.end_ + 1 -- `++end()`: the incremented temporary is dropped
    (h1, v)
  else
    reallocate_insert c h v v.end_ value

/-- A run of `push_back` calls, one per value, in order. -/
def push_back_all {α : Type} (c : Cfg) (s : Heap α × vector) (xs : List α) : Heap α × vector :=
  xs.foldl (fun t x => push_back c t.1 t.2 x) s

/-- A small platform for concrete runs: 8-bit `size_type`, 4-byte elements. -/
def cfg8 : Cfg := ⟨8, 4, by decide⟩

/-- Modelled from the spec: the macro `THROW_LENGTH_ERROR_IF(expr, what)` of the
absent `exceptdef.h`: raises the length-violation condition when `expr` holds. -/
def THROW_LENGTH_ERROR_IF (expr : Bool) : Except Exn Unit :=
  if expr then Except.error Exn.length_error else Except.ok ()

/-- The call `construct(ptr, *src)`, in the reading it aims at: a copy of the
object living at `src` is placement-constructed at `ptr` (spec section 4.1). As
written, the non-const lvalue argument selects `allocator::construct(T*,
Args&&...)`, whose body spells `forward<args>` and accepts no instantiation. -/
def construct_copy {α : Type} (h : Heap α) (ptr src : Nat) : Heap α :=
  h.store ptr (h.cell src)

/-- The member `vector::at`: the reference it returns, as an address, or the
condition it raises. -/
def vector.at (v : vector) (n : Nat) : Except Exn Nat :=
  match THROW_LENGTH_ERROR_IF (!(decide (n < v.size))) with
  | Except.error e => Except.error e
  | Except.ok _ => Except.ok (v.index n)

/-- The member `vector::insert(const_iterator pos, const value_type& value)`:
heap and cursors after the call, and the iterator returned. -/
def insert {α : Type} (c : Cfg) (h : Heap α) (v : vector) (pos : Nat) (value : α) :
    Heap α × vector × Nat :=
  let xpos := pos
  let n := pos - v.begin_
  if v.end_ ≠ v.cap_ ∧ xpos = v.end_ then
    let h1 := construct h v.end_ value
    let _end_value := v.end_ + 1 -- `++end()`: the incremented temporary is dropped
    (h1, v, v.begin_ + n)
  else if v.end_ ≠ v.cap_ then
    let new_end := v.end_
    let h1 := construct_copy h v.end_ (v.end_ - 1)
    let _new_end := new_end + 1 -- `++new_end`; the branch ends without storing it in `end_`
    let value_copy := value
    let m := copy_backward h1 xpos (v.end_ - 1) v.end_
    let h2 := m.1.store xpos (some value_copy)
    (h2, v, v.begin_ + n)
  else
    let r := reallocate_insert c h v xpos value
    (r.1, r.2, r.2.begin_ + n)

/-- Modelled from the spec: `vector::erase(const_iterator pos)` (declared, not
defined in the sources): move the tail left over the removed slot, destroy the
orphaned trailing slot, retract `end_`; no reallocation. -/
def erase {α : Type} (h : Heap α) (v : vector) (pos : Nat) : Heap α × vector × Nat :=
  let xpos := v.begin_ + (pos - v.begin_)
  let h1 := copy_cells (v.end_ - (xpos + 1)) h (xpos + 1) xpos
  let h2 := destroy h1 (v.end_ - 1)
  (h2, ⟨v.begin_, v.end_ - 1, v.cap_⟩, xpos)

/-- The constructor `vector(vector&& rhs)`: heap, the new vector, and `rhs`
afterwards. The member initialisers copy the three cursors; of the three
statements of the body only `rhs.cap_ = nullptr` writes a member, while
`rhs.begin() = nullptr` and `rhs.end() = nullptr` assign to returned values. -/
def move_ctor {α : Type} (h : Heap α) (rhs : vector) : Heap α × vector × vector :=
  (h, ⟨rhs.begin_, rhs.end_, rhs.cap_⟩, ⟨rhs.begin_, rhs.end_, nullptr⟩)

/-- The member `vector::operator=(vector&& rhs)` on two distinct objects: heap,
the assigned vector, and `rhs` afterwards. After `destroy_and_recover`, the
statements `begin() = rhs.begin()`, `end() = rhs.end()`, `rhs.begin() = nullptr`
and `rhs.end() = nullptr` assign to returned values; `cap_ = rhs.cap_` and
`rhs.cap_ = nullptr` write members. -/
def move_assign {α : Type} (h : Heap α) (self rhs : vector) : Heap α × vector × vector :=
  let h1 := destroy_and_recover h self.begin_ self.end_ self.capacity
  (h1, ⟨self.begin_, self.end_, rhs.cap_⟩, ⟨rhs.begin_, rhs.end_, nullptr⟩)

/-- The destructor `~vector()`: heap afterwards and the cursors as they are left.
Only `cap_ = nullptr` writes a member. -/
def dtor {α : Type} (h : Heap α) (v : vector) : Heap α × vector :=
  (destroy_and_recover h v.begin_ v.end_ v.capacity, ⟨v.begin_, v.end_, nullptr⟩)

/-- Modelled from the spec: `vector::range_init` (declared, not defined in the
sources), the body of `vector(Iter first, Iter last)`: a fresh buffer of at least
`last - first` slots, into which `[first, last)` is copy-constructed. How much
more than `last - first` it allocates is left open by `init_cap`. -/
def range_init {α : Type} (c : Cfg) (init_cap : Nat) (h : Heap α) (first last : Nat) :
    Heap α × vector :=
  let len := last - first
  let cap := max len init_cap
  let a := allocate c h cap
  let m := uninitialized_copy a.1 first last a.2
  (m.1, ⟨a.2, a.2 + len, a.2 + cap⟩)

/-- Modelled from the spec: `vector::swap` (declared, not defined in the
sources): the two vectors exchange their three cursors. -/
def vector.swap (self rhs : vector) : vector × vector := (rhs, self)

/-- The member `vector::operator=(const vector& rhs)`; `same` is the outcome of
the test `this == &rhs`. In the two branches that work in place,
`end() = begin() + len` assigns to a returned value, so `end_` keeps its old
value, and the `cap_ = end()` of the last branch stores that old `end_`. -/
def copy_assign {α : Type} (c : Cfg) (init_cap : Nat) (h : Heap α) (self rhs : vector)
    (same : Bool) : Heap α × vector :=
  if !same then
    let len := rhs.size
    if len > self.capacity then
      let tmp := range_init c init_cap h rhs.begin_ rhs.end_
      let s := vector.swap self tmp.2
      ((dtor tmp.1 s.2).1, s.1)
    else if self.size ≥ len then
      let m := copy h rhs.begin_ rhs.end_ self.begin_
      let h1 := destroy_range m.1 m.2 self.end_
      let _end_value := self.begin_ + len -- `end() = begin() + len`: nothing is stored
      (h1, self)
    else
      let m1 := copy h rhs.begin_ (rhs.begin_ + self.size) self.begin_
      let m2 := uninitialized_copy m1.1 (rhs.begin_ + self.size) rhs.end_ self.end_
      let _end_value := self.begin_ + len -- `end() = begin() + len`: nothing is stored
      (m2.1, ⟨self.begin_, self.end_, self.end_⟩)
  else
    (h, self)

/-- The member `vector::reserve`: the condition raised (if any), and heap and
cursors after the call. After the old block is released, `begin() = tmp` and
`end() = tmp + old_size` assign to returned values; `cap_ = begin() + n` stores
the old `begin_` plus `n`. -/
def reserve {α : Type} (c : Cfg) (h : Heap α) (v : vector) (n : Nat) :
    Except Exn Unit × Heap α × vector :=
  if v.capacity < n then
    match THROW_LENGTH_ERROR_IF (decide (n > max_size c)) with
    | Except.error e => (Except.error e, h, v)
    | Except.ok _ =>
      let old_size := v.size
      let a := allocate c h n
      let tmp := a.2
      let m := uninitialized_move a.1 v.begin_ v.end_ tmp
      let h1 := deallocate m.1 v.begin_ v.capacity
      let _end_value := tmp + old_size -- `end() = tmp + old_size`: nothing is stored
      (Except.ok (), h1, ⟨v.begin_, v.end_, v.begin_ + n⟩)
  else
    (Except.ok (), h, v)

/-- A vector of size 1 and capacity 3: one 12-byte block based at slot 1, whose
first slot holds the element 1. -/
def demo_a : Heap Nat × vector :=
  (⟨fun q => if q = 1 then some 1 else none, [(1, 12)], 4⟩, ⟨1, 2, 4⟩)

/-- A second vector `[7, 8]` built in the heap of `demo_a`. -/
def demo_b : Heap Nat × vector :=
  push_back_all cfg8 (try_init demo_a.1) [7, 8]

/-- Modelled from the spec: `vector::reallocate_emplace` (declared, not defined
in the sources): the growth path of `emplace`/`emplace_back`, the same
allocate-new / migrate / construct-in-place / destroy-old sequence as
`reallocate_insert`; the new element is built from the forwarded arguments once
`[begin_, pos)` has been migrated. `args` gives the object `value_type(args...)`
builds in a given heap, so arguments that refer to elements are read when the
object is built. When the length violation is raised (`growth_raises`) nothing
is mutated. -/
def reallocate_emplace {α : Type} (c : Cfg) (h : Heap α) (v : vector) (pos : Nat)
    (args : Heap α → Option α) : Heap α × vector :=
  if growth_raises c v 1 then (h, v)
  else
    let new_size := get_new_cap c v 1
    let a := allocate c h new_size
    let new_begin := a.2
    let m1 := uninitialized_move a.1 v.begin_ pos new_begin
    let h2 := m1.1.store m1.2 (args m1.1)
    let m2 := uninitialized_move h2 pos v.end_ (m1.2 + 1)
    let h3 := destroy_and_recover m2.1 v.begin_ v.end_ v.capacity
    (h3, ⟨new_begin, m2.2, new_begin + new_size⟩)

/-- The member `vector::emplace(const_iterator pos, Args&&... args)`; `args`
gives the object `value_type(args...)` builds in a given heap. Heap and cursors
after the call, and the iterator returned. With spare capacity and
`pos != end()` the object is built after the tail has been shifted, with no copy
of the arguments taken before. -/
def emplace {α : Type} (c : Cfg) (h : Heap α) (v : vector) (pos : Nat)
    (args : Heap α → Option α) : Heap α × vector × Nat :=
  let xpos := pos
  let n := xpos - v.begin_
  if v.end_ ≠ v.cap_ ∧ xpos = v.end_ then
    let h1 := h.store v.end_ (args h)
    let _end_value := v.end_ + 1 -- `++end()`: the incremented temporary is dropped
    (h1, v, v.begin_ + n)
  else if v.end_ ≠ v.cap_ then
    let new_end := v.end_
    let h1 := construct_copy h v.end_ (v.end_ - 1)
    let _new_end := new_end + 1 -- `++new_end`; the branch ends without storing it in `end_`
    let m := copy_backward h1 xpos (v.end_ - 1) v.end_
    let h2 := m.1.store xpos (args m.1)
    (h2, v, v.begin_ + n)
  else
    let r := reallocate_emplace c h v xpos args
    (r.1, r.2, r.2.begin_ + n)

/-- The member `vector::emplace_back(Args&&... args)`; `args` gives the object
the arguments build in a given heap. The body has no `return` statement on
either path, so the third component, the iterator handed back to the caller, is
`none`; and with spare capacity `++end()` increments a returned value. -/
def emplace_back {α : Type} (c : Cfg) (h : Heap α) (v : vector)
    (args : Heap α → Option α) : Heap α × vector × Option Nat :=
  if v.end_ < v.cap_ then
    let h1 := h.store v.end_ (args h)
    let _end_value := v.end_ + 1 -- `++end()`: the incremented temporary is dropped
    (h1, v, none)
  else
    let r := reallocate_emplace c h v v.end_ args
    (r.1, r.2, none)

/-- The member `vector::pop_back`: the last element is destroyed; `--end()`
decrements the value `end()` returned and leaves the member `end_` as it was. -/
def pop_back {α : Type} (h : Heap α) (v : vector) : Heap α × vector :=
  let h1 := destroy h (v.end_ - 1)
  let _end_value := v.end_ - 1 -- `--end()`: the decremented temporary is dropped
  (h1, v)

/-- The member `vector::operator=(std::initializer_list<value_type> ilist)`; the
list's backing array is the range `[ilist_begin, ilist_end)` of the heap. -/
def assign_ilist {α : Type} (c : Cfg) (init_cap : Nat) (h : Heap α) (self : vector)
    (ilist_begin ilist_end : Nat) : Heap α × vector :=
  let tmp := range_init c init_cap h ilist_begin ilist_end
  let s := vector.swap self tmp.2
  ((dtor tmp.1 s.2).1, s.1)

/-- Modelled from the spec: `vector::erase(const_iterator first, const_iterator
last)` (declared, not defined in the sources): move the tail `[last, end_)` left
onto `first`, destroy the orphaned trailing slots, retract `end_` by
`last - first`; no reallocation. Returns the iterator to the first survivor. -/
def erase_range {α : Type} (h : Heap α) (v : vector) (first last : Nat) :
    Heap α × vector × Nat :=
  let n := first - v.begin_
  let r := v.begin_ + n
  let h1 := copy_cells (v.end_ - last) h last r
  let h2 := destroy_range h1 (r + (v.end_ - last)) v.end_
  (h2, ⟨v.begin_, v.end_ - (last - first), v.cap_⟩, v.begin_ + n)

/-- A 64-bit platform with 4-byte elements. -/
def cfg64 : Cfg := ⟨64, 4, by decide⟩

/-- The class `reverse_iterator<Iterator>` over pointer cursors: the wrapped
cursor `current`, an address counted in slots. `difference_type` is `Int`, and
cursor arithmetic is address arithmetic in `Int`. -/
structure reverse_iterator where
  current : Int
  deriving DecidableEq, Repr

/-- The member `reverse_iterator::base`. -/
def reverse_iterator.base (r : reverse_iterator) : Int := r.current

/-- The member `reverse_iterator::operator*`: `tmp = current; return *(--tmp)`,
the reference as an address. -/
def reverse_iterator.op_star (r : reverse_iterator) : Int :=
  let tmp := r.current
  tmp - 1

/-- The member `reverse_iterator::operator++()`: `--current`. -/
def reverse_iterator.pre_inc (r : reverse_iterator) : reverse_iterator :=
  ⟨r.current - 1⟩

/-- The member `reverse_iterator::operator--()`: `++current`. -/
def reverse_iterator.pre_dec (r : reverse_iterator) : reverse_iterator :=
  ⟨r.current + 1⟩

/-- The member `reverse_iterator::operator+(difference_type n)`. -/
def reverse_iterator.op_plus (r : reverse_iterator) (n : Int) : reverse_iterator :=
  ⟨r.current - n⟩

/-- The member `reverse_iterator::operator-(difference_type n)`. -/
def reverse_iterator.op_minus (r : reverse_iterator) (n : Int) : reverse_iterator :=
  ⟨r.current + n⟩

/-- The member `reverse_iterator::operator[]`: `*(*this + n)`. -/
def reverse_iterator.op_index (r : reverse_iterator) (n : Int) : Int :=
  (r.op_plus n).op_star

/-- The function `operator-(lhs, rhs)` on reverse iterators. -/
def reverse_iterator.op_diff (lhs rhs : reverse_iterator) : Int :=
  rhs.base - lhs.base

/-- The function `operator==` on reverse iterators. -/
def reverse_iterator.op_eq (lhs rhs : reverse_iterator) : Bool :=
  lhs.base == rhs.base

/-- The function `operator<` on reverse iterators. -/
def reverse_iterator.op_lt (lhs rhs : reverse_iterator) : Bool :=
  decide (lhs.base > rhs.base)

/-- The function `operator!=` on reverse iterators. -/
def reverse_iterator.op_ne (lhs rhs : reverse_iterator) : Bool :=
  !(reverse_iterator.op_eq lhs rhs)

/-- The function `operator>` on reverse iterators. -/
def reverse_iterator.op_gt (lhs rhs : reverse_iterator) : Bool :=
  reverse_iterator.op_lt rhs lhs

/-- The function `operator<=` on reverse iterators. -/
def reverse_iterator.op_le (lhs rhs : reverse_iterator) : Bool :=
  !(reverse_iterator.op_lt rhs lhs)

/-- The function `operator>=` on reverse iterators. -/
def reverse_iterator.op_ge (lhs rhs : reverse_iterator) : Bool :=
  !(reverse_iterator.op_lt lhs rhs)

/-- The member `vector::rbegin`: `reverse_iterator(end())`. -/
def vector.rbegin (v : vector) : reverse_iterator := ⟨(v.end_ : Int)⟩

/-- The member `vector::rend`: `reverse_iterator(begin())`. -/
def vector.rend (v : vector) : reverse_iterator := ⟨(v.begin_ : Int)⟩

/-- The slot a reference designates, read from the heap; addresses below zero
hold nothing. -/
def Heap.read {α : Type} (h : Heap α) (a : Int) : Option α :=
  if 0 ≤ a then h.cell a.toNat else none

/-- The loop `for (it = first; it != last; ++it) visit(*it)` over reverse
iterators, run for at most `fuel` steps: the slots visited, in order, and
whether `last` was reached. -/
def reverse_walk {α : Type} (h : Heap α) (last : reverse_iterator) :
    Nat → reverse_iterator → List (Option α) × Bool
  | 0, it => ([], reverse_iterator.op_eq it last)
  | fuel + 1, it =>
    if reverse_iterator.op_ne it last then
      let rest := reverse_walk h last fuel it.pre_inc
      (h.read it.op_star :: rest.1, rest.2)
    else ([], true)

/-- The vector `[1, 2, 3]`, capacity 3: three `push_back` calls on an empty vector. -/
def demo_c : Heap Nat × vector :=
  push_back_all cfg8 (try_init (Heap.empty : Heap Nat)) [1, 2, 3]

/-- The vector `[1, 2, 3]` and, in the same heap, a one-element array `[9]`
standing for the backing array of the initializer list `{9}`. -/
def demo_d : Heap Nat × vector × vector :=
  ((push_back_all cfg8 (try_init demo_c.1) [9]).1, demo_c.2,
    (push_back_all cfg8 (try_init demo_c.1) [9]).2)

/-- The loop of `distance_dispatch(first, last, input_iterator_tag)` over pointer
cursors, with the counter `n` as accumulator: `while (first != last) { ++n;
++first; }`, then `return n`. `none` when `fuel` iterations were not enough. -/
def distance_loop : Nat → Int → Int → Int → Option Int
  | 0, first, last, n => if first ≠ last then none else some n
  | fuel + 1, first, last, n =>
    if first ≠ last then distance_loop fuel (first + 1) last (n + 1) else some n

/-- The function `distance_dispatch(first, last, input_iterator_tag)`: the
counter starts at 0. -/
def distance_dispatch_input (fuel : Nat) (first last : Int) : Option Int :=
  distance_loop fuel first last 0

/-- The function `distance_dispatch(first, last, random_access_iterator_tag)`. -/
def distance_dispatch_random (first last : Int) : Int :=
  last - first

/-- The function `distance(first, last)` on pointer cursors, whose
`iterator_category` is `random_access_iterator_tag`. -/
def distance (first last : Int) : Int :=
  distance_dispatch_random first last

/-- The loop `while (n--) { ++i; }` of `advance_dispatch(i, n,
input_iterator_tag)`: the cursor reached and the number of increments made.
`none` when `fuel` iterations were not enough. -/
def advance_input_loop : Nat → Int → Int → Nat → Option (Int × Nat)
  | 0, i, n, k => if n ≠ 0 then none else some (i, k)
  | fuel + 1, i, n, k =>
    if n ≠ 0 then advance_input_loop fuel (i + 1) (n - 1) (k + 1) else some (i, k)

/-- The function `advance_dispatch(i, n, input_iterator_tag)`. -/
def advance_dispatch_input (fuel : Nat) (i n : Int) : Option (Int × Nat) :=
  advance_input_loop fuel i n 0

/-- The loop `while (n-- > 0) { ++i; }`: the cursor reached and the number of
increments made. -/
def advance_up_loop : Nat → Int → Int → Nat → Option (Int × Nat)
  | 0, i, n, k => if n > 0 then none else some (i, k)
  | fuel + 1, i, n, k =>
    if n > 0 then advance_up_loop fuel (i + 1) (n - 1) (k + 1) else some (i, k)

/-- The loop `while (n++ < 0) { --i; }`: the cursor reached and the number of
decrements made. -/
def advance_down_loop : Nat → Int → Int → Nat → Option (Int × Nat)
  | 0, i, n, k => if n < 0 then none else some (i, k)
  | fuel + 1, i, n, k =>
    if n < 0 then advance_down_loop fuel (i - 1) (n + 1) (k + 1) else some (i, k)

/-- The function `advance_dispatch(i, n, bidirectional_iterator_tag)`. -/
def advance_dispatch_bidirectional (fuel : Nat) (i n : Int) : Option (Int × Nat) :=
  if n ≥ 0 then advance_up_loop fuel i n 0 else advance_down_loop fuel i n 0

/-- The function `advance_dispatch(i, n, random_access_iterator_tag)`: `i += n`. -/
def advance_dispatch_random (i n : Int) : Int :=
  i + n

/-- The function `advance(i, n)` on pointer cursors, whose `iterator_category` is
`random_access_iterator_tag`. -/
def advance (i n : Int) : Int :=
  advance_dispatch_random i n

/-- The member `reverse_iterator::operator+=(difference_type n)`: `current -= n`. -/
def reverse_iterator.op_plus_assign (r : reverse_iterator) (n : Int) : reverse_iterator :=
  ⟨r.current - n⟩

/-- The member `reverse_iterator::operator-=(difference_type n)`: `current += n`. -/
def reverse_iterator.op_minus_assign (r : reverse_iterator) (n : Int) : reverse_iterator :=
  ⟨r.current + n⟩

/-! ## Theorems -/

variable {α : Type}

@[simp] theorem store_cell_same (h : Heap α) (p : Nat) (x : Option α) :
    (h.store p x).cell p = x := by simp [Heap.store]

theorem store_cell_other (h : Heap α) (p q : Nat) (x : Option α) (hq : q ≠ p) :
    (h.store p x).cell q = h.cell q := by simp [Heap.store, hq]

theorem copy_cells_outside (n : Nat) (h : Heap α) (src dst q : Nat)
    (hq : q < dst ∨ dst + n ≤ q) : (copy_cells n h src dst).cell q = h.cell q := by
  induction n generalizing h src dst with
  | zero => rfl
  | succ n ih =>
    rw [copy_cells, ih _ _ _ (by omega)]
    exact store_cell_other _ _ _ _ (by omega)

theorem copy_cells_inside (n : Nat) (h : Heap α) (src dst i : Nat)
    (hd : src + n ≤ dst ∨ dst + n ≤ src) (hi : i < n) :
    (copy_cells n h src dst).cell (dst + i) = h.cell (src + i) := by
  induction n generalizing h src dst i with
  | zero => omega
  | succ n ih =>
    rw [copy_cells]
    cases i with
    | zero =>
      rw [copy_cells_outside _ _ _ _ _ (by omega)]
      simp
    | succ i =>
      have e1 : dst + (i + 1) = dst + 1 + i := by omega
      have e2 : src + (i + 1) = src + 1 + i := by omega
      rw [e1, e2, ih _ _ _ _ (by omega) (by omega)]
      exact store_cell_other _ _ _ _ (by omega)

theorem destroy_cat_outside (n : Nat) (h : Heap α) (first q : Nat)
    (hq : q < first ∨ first + n ≤ q) : (destroy_cat n h first).cell q = h.cell q := by
  induction n generalizing h first with
  | zero => rfl
  | succ n ih =>
    rw [destroy_cat, ih _ _ (by omega)]
    unfold destroy
    split
    · exact store_cell_other _ _ _ _ (by omega)
    · rfl

theorem deallocate_cell (h : Heap α) (ptr : Nat) (n : Nat) :
    (deallocate h ptr n).cell = h.cell := by
  unfold deallocate operator_delete
  split <;> rfl

theorem alloc_bytes_exact (c : Cfg) (n : Nat) (hn : n ≤ max_size c) :
    alloc_bytes c n = n * c.sizeofT := by
  unfold alloc_bytes
  apply Nat.mod_eq_of_lt
  have h1 : n * c.sizeofT ≤ (2 ^ c.w - 1) / c.sizeofT * c.sizeofT :=
    Nat.mul_le_mul_right _ hn
  have h2 : (2 ^ c.w - 1) / c.sizeofT * c.sizeofT ≤ 2 ^ c.w - 1 := Nat.div_mul_le_self _ _
  have h3 : 0 < 2 ^ c.w := Nat.two_pow_pos _
  omega

theorem slots_of_bytes (c : Cfg) (n : Nat) :
    (n * c.sizeofT + c.sizeofT - 1) / c.sizeofT = n := by
  have hs := c.sizeofT_pos
  have : n * c.sizeofT + c.sizeofT - 1 = (c.sizeofT - 1) + c.sizeofT * n := by
    rw [Nat.mul_comm]; omega
  rw [this, Nat.add_mul_div_left _ _ hs, Nat.div_eq_of_lt (by omega)]
  simp

theorem allocate_cell (c : Cfg) (h : Heap α) (n : Nat) :
    (allocate c h n).1.cell = h.cell := by
  unfold allocate operator_new
  split <;> rfl

theorem allocate_zero (c : Cfg) (h : Heap α) : allocate c h 0 = (h, nullptr) := by
  simp [allocate]

theorem allocate_pos (c : Cfg) (h : Heap α) (n : Nat) (h0 : 0 < n) (hn : n ≤ max_size c) :
    (allocate c h n).2 = h.brk + 1 ∧ (allocate c h n).1.brk = h.brk + 1 + n := by
  have : n ≠ 0 := by omega
  simp [allocate, operator_new, this, alloc_bytes_exact c n hn, slots_of_bytes]

theorem get_new_cap_le (c : Cfg) (v : vector) (k : Nat) : get_new_cap c v k ≤ max_size c := by
  unfold get_new_cap; omega

theorem get_new_cap_ge (c : Cfg) (v : vector) (k : Nat) (hk : v.capacity + k ≤ max_size c)
    (h1 : 1 ≤ max_size c) : v.capacity + k ≤ get_new_cap c v k ∧ 1 ≤ get_new_cap c v k := by
  unfold get_new_cap; omega

/-- C2, the spec's own example: pushing 1, 2, 3 and erasing index 1 leaves `[1, 3]`
with capacity 3; `insert(begin(), 0)` then writes 0, 1, 3 into the buffer but never
advances `end_`, so the vector still has size 2 and holds `[0, 1]`, not `[0, 1, 3]`. -/
theorem insert_spare_middle_loses_last :
    (erase (push_back_all cfg8 (try_init (Heap.empty : Heap Nat)) [1, 2, 3]).1
        (push_back_all cfg8 (try_init (Heap.empty : Heap Nat)) [1, 2, 3]).2 7).2.1
      = ⟨6, 8, 9⟩ ∧
    vector.elems (erase (push_back_all cfg8 (try_init (Heap.empty : Heap Nat)) [1, 2, 3]).1
        (push_back_all cfg8 (try_init (Heap.empty : Heap Nat)) [1, 2, 3]).2 7).1 ⟨6, 8, 9⟩
      = [some 1, some 3] ∧
    (insert cfg8 (erase (push_back_all cfg8 (try_init (Heap.empty : Heap Nat)) [1, 2, 3]).1
        (push_back_all cfg8 (try_init (Heap.empty : Heap Nat)) [1, 2, 3]).2 7).1 ⟨6, 8, 9⟩ 6 0).2.1
      = ⟨6, 8, 9⟩ ∧
    vector.elems (insert cfg8 (erase (push_back_all cfg8 (try_init (Heap.empty : Heap Nat)) [1, 2, 3]).1
        (push_back_all cfg8 (try_init (Heap.empty : Heap Nat)) [1, 2, 3]).2 7).1 ⟨6, 8, 9⟩ 6 0).1
        ⟨6, 8, 9⟩
      = [some 0, some 1] := by
  decide

/-- C3, at index `size()`: on a vector of size 3 the checked accessor `at(3)`
raises the length-violation condition (the one `reserve` raises), not the
out-of-range condition. -/
theorem at_size_raises_length_error :
    vector.at ⟨6, 9, 9⟩ 3 = Except.error Exn.length_error ∧
    vector.at ⟨6, 9, 9⟩ 3 ≠ Except.error Exn.out_of_range :=
  ⟨rfl, fun e => Exn.noConfusion (Except.error.inj e)⟩

theorem allocate_ptr (c : Cfg) (h : Heap α) (n : Nat) (h0 : n ≠ 0) :
    (allocate c h n).2 = h.brk + 1 := by
  simp [allocate, operator_new, h0]

theorem copy_cells_blocks (n : Nat) (h : Heap α) (src dst : Nat) :
    (copy_cells n h src dst).blocks = h.blocks := by
  induction n generalizing h src dst with
  | zero => rfl
  | succ n ih => rw [copy_cells, ih]; rfl

theorem destroy_cat_blocks (n : Nat) (h : Heap α) (first : Nat) :
    (destroy_cat n h first).blocks = h.blocks := by
  induction n generalizing h first with
  | zero => rfl
  | succ n ih =>
    rw [destroy_cat, ih]
    unfold destroy
    split <;> rfl

theorem destroy_cat_inside (n : Nat) (h : Heap α) (first p : Nat)
    (h1 : first ≤ p) (h2 : p < first + n) (h0 : p ≠ nullptr) :
    (destroy_cat n h first).cell p = none := by
  induction n generalizing h first with
  | zero => omega
  | succ n ih =>
    rw [destroy_cat]
    by_cases hp : p = first
    · subst hp
      rw [destroy_cat_outside _ _ _ _ (by omega)]
      simp [destroy, h0]
    · exact ih _ _ (by omega) (by omega)

theorem deallocate_blocks (h : Heap α) (ptr n : Nat) (h0 : ptr ≠ nullptr) :
    ∀ b, b ∈ (deallocate h ptr n).blocks → b.1 ≠ ptr := by
  intro b hb
  simp only [deallocate, h0, if_false, operator_delete, List.mem_filter] at hb
  simpa using hb.2

theorem reserve_grow (c : Cfg) (h : Heap α) (v : vector) (n : Nat)
    (hlt : v.capacity < n) (hn : n ≤ max_size c) :
    reserve c h v n = (Except.ok (),
      deallocate (copy_cells (v.end_ - v.begin_) (allocate c h n).1 v.begin_ (h.brk + 1))
        v.begin_ v.capacity,
      ⟨v.begin_, v.end_, v.begin_ + n⟩) := by
  have h0 : n ≠ 0 := by omega
  have hm : ¬ n > max_size c := by omega
  simp only [reserve, if_pos hlt, THROW_LENGTH_ERROR_IF, hm, decide_False, Bool.false_eq_true,
    if_false, uninitialized_move, allocate_ptr c h n h0]

theorem reserve_keep (c : Cfg) (h : Heap α) (v : vector) (n : Nat) (hle : ¬ v.capacity < n) :
    reserve c h v n = (Except.ok (), h, v) := by
  simp only [reserve, if_neg hle]

theorem reserve_throw (c : Cfg) (h : Heap α) (v : vector) (n : Nat)
    (hlt : v.capacity < n) (hn : n > max_size c) :
    reserve c h v n = (Except.error Exn.length_error, h, v) := by
  simp only [reserve, if_pos hlt, THROW_LENGTH_ERROR_IF, hn, decide_True, if_true]

/-- C9: on a vector whose capacity does not exceed `max_size()`, `reserve(n)` with
`n > max_size()` raises the length-violation condition and leaves heap and
cursors exactly as they were; with `n <= max_size()` it raises nothing. -/
theorem reserve_length_error (c : Cfg) (h : Heap α) (v : vector) (n : Nat)
    (_hw : v.wf) (hcap : v.capacity ≤ max_size c) :
    (n > max_size c → reserve c h v n = (Except.error Exn.length_error, h, v)) ∧
    (n ≤ max_size c → (reserve c h v n).1 = Except.ok ()) := by
  constructor
  · intro hn
    exact reserve_throw c h v n (by omega) hn
  · intro hn
    by_cases hlt : v.capacity < n
    · rw [reserve_grow c h v n hlt hn]
    · rw [reserve_keep c h v n hlt]

/-- C9, at a concrete vector: with `max_size() = 63`, `reserve(64)` raises and
changes nothing, `reserve(63)` raises nothing. -/
theorem reserve_length_error_witness :
    reserve cfg8 demo_a.1 demo_a.2 64 = (Except.error Exn.length_error, demo_a.1, demo_a.2) ∧
    (reserve cfg8 demo_a.1 demo_a.2 63).1 = Except.ok () :=
  ⟨(reserve_length_error cfg8 demo_a.1 demo_a.2 64 (by decide) (by decide)).1 (by decide),
   (reserve_length_error cfg8 demo_a.1 demo_a.2 63 (by decide) (by decide)).2 (by decide)⟩

theorem reallocate_insert_capacity (c : Cfg) (h : Heap α) (v : vector) (pos : Nat) (value : α) :
    (reallocate_insert c h v pos value).2.capacity = v.capacity ∨
    (reallocate_insert c h v pos value).2.capacity = get_new_cap c v 1 := by
  unfold reallocate_insert
  split
  · exact Or.inl rfl
  · right
    simp [vector.capacity]

theorem get_new_cap_mono (c : Cfg) (v : vector) (k : Nat) (hcap : v.capacity ≤ max_size c) :
    v.capacity ≤ get_new_cap c v k := by
  unfold get_new_cap; omega

/-- C10: on a vector whose capacity does not exceed `max_size()`, the capacity
after `push_back`, after `insert` and after `reserve` (whether it returns or
raises) is at least the capacity before. -/
theorem capacity_monotone (c : Cfg) (h : Heap α) (v : vector) (pos n : Nat) (value : α)
    (_hw : v.wf) (_hpos : v.begin_ ≤ pos ∧ pos ≤ v.end_) (hcap : v.capacity ≤ max_size c) :
    v.capacity ≤ (push_back c h v value).2.capacity ∧
    v.capacity ≤ (insert c h v pos value).2.1.capacity ∧
    v.capacity ≤ (reserve c h v n).2.2.capacity := by
  have hg := get_new_cap_mono c v 1 hcap
  refine ⟨?_, ?_, ?_⟩
  · by_cases h1 : v.end_ ≠ v.cap_
    · simp only [push_back, if_pos h1]
      exact Nat.le_refl _
    · simp only [push_back, if_neg h1]
      rcases reallocate_insert_capacity c h v v.end_ value with e | e
      · exact Nat.le_of_eq e.symm
      · rw [e]; exact hg
  · by_cases h1 : v.end_ ≠ v.cap_ ∧ pos = v.end_
    · simp only [insert, if_pos h1]
      exact Nat.le_refl _
    · by_cases h2 : v.end_ ≠ v.cap_
      · simp only [insert, if_neg h1, if_pos h2]
        exact Nat.le_refl _
      · simp only [insert, if_neg h1, if_neg h2]
        rcases reallocate_insert_capacity c h v pos value with e | e
        · exact Nat.le_of_eq e.symm
        · rw [e]; exact hg
  · by_cases hlt : v.capacity < n
    · by_cases hn : n ≤ max_size c
      · rw [reserve_grow c h v n hlt hn]
        simp only [vector.capacity, Nat.add_sub_cancel_left]
        unfold vector.capacity at hlt
        omega
      · rw [reserve_throw c h v n hlt (by omega)]
    · rw [reserve_keep c h v n hlt]

/-- C10, at a concrete vector: a full vector `[7, 8]` grows from capacity 2 to 3 on
`push_back` and on `insert(begin(), 0)`, and to 10 on `reserve(10)`. -/
theorem capacity_monotone_witness :
    demo_b.2.capacity ≤ (push_back cfg8 demo_b.1 demo_b.2 9).2.capacity ∧
    demo_b.2.capacity ≤ (insert cfg8 demo_b.1 demo_b.2 demo_b.2.begin_ 0).2.1.capacity ∧
    demo_b.2.capacity ≤ (reserve cfg8 demo_b.1 demo_b.2 10).2.2.capacity :=
  capacity_monotone cfg8 demo_b.1 demo_b.2 demo_b.2.begin_ 10 9 (by decide) (by decide)
    (by decide)

theorem read_natCast (h : Heap α) (n : Nat) : h.read (n : Int) = h.cell n := by
  simp [Heap.read]

theorem reverse_walk_spec (h : Heap α) (last : Nat) (n fuel : Nat) (hf : n ≤ fuel) :
    reverse_walk h ⟨(last : Int)⟩ fuel ⟨((last + n : Nat) : Int)⟩ =
      ((List.range n).map (fun i => h.cell (last + (n - 1 - i))), true) := by
  induction n generalizing fuel with
  | zero =>
    cases fuel with
    | zero => simp [reverse_walk, reverse_iterator.op_eq, reverse_iterator.base]
    | succ f =>
      simp [reverse_walk, reverse_iterator.op_ne, reverse_iterator.op_eq, reverse_iterator.base]
  | succ n ih =>
    cases fuel with
    | zero => omega
    | succ f =>
      have hne : reverse_iterator.op_ne ⟨((last + (n + 1) : Nat) : Int)⟩ ⟨(last : Int)⟩ = true := by
        simp only [reverse_iterator.op_ne, reverse_iterator.op_eq, reverse_iterator.base,
          Bool.not_eq_true', beq_eq_false_iff_ne, ne_eq]
        omega
      have hstep : reverse_iterator.pre_inc ⟨((last + (n + 1) : Nat) : Int)⟩
          = ⟨((last + n : Nat) : Int)⟩ := by
        simp only [reverse_iterator.pre_inc, reverse_iterator.mk.injEq]
        omega
      have hread : h.read (reverse_iterator.op_star ⟨((last + (n + 1) : Nat) : Int)⟩)
          = h.cell (last + n) := by
        have e : ((last + (n + 1) : Nat) : Int) - 1 = ((last + n : Nat) : Int) := by omega
        simp only [reverse_iterator.op_star]
        rw [e, read_natCast]
      rw [reverse_walk, if_pos hne, hstep, ih f (by omega), hread]
      simp only [Prod.mk.injEq, and_true]
      rw [List.range_succ_eq_map, List.map_cons, List.map_map]
      congr 1
      apply List.map_congr_left
      intro i hi
      simp only [Function.comp, Nat.succ_eq_add_one]
      congr 2
      have := List.mem_range.mp hi
      omega

/-- C12: dereferencing a reverse adaptor over cursor `c` designates the slot
just before `c`; for a well-formed vector, `*(rbegin() + i)` is the element at
index `size() - 1 - i` for every `i < size()`, `rbegin() + size()` is `rend()`,
stepping `rbegin()` with `++` `i` times gives `rbegin() + i`, and the loop from
`rbegin()` to `rend()` ends after `size()` steps having visited the elements in
exactly reverse order. -/
theorem reverse_traversal (h : Heap α) (v : vector) (hw : v.wf) :
    (∀ c : Int, reverse_iterator.op_star ⟨c⟩ = c - 1) ∧
    (∀ i : Nat, i < v.size →
      h.read (v.rbegin.op_plus (i : Int)).op_star = h.cell (v.index (v.size - 1 - i))) ∧
    v.rbegin.op_plus (v.size : Int) = v.rend ∧
    (∀ i : Nat, (reverse_iterator.pre_inc^[i]) v.rbegin = v.rbegin.op_plus (i : Int)) ∧
    (∀ fuel, v.size ≤ fuel →
      reverse_walk h v.rend fuel v.rbegin = ((v.elems h).reverse, true)) := by
  obtain ⟨hbe, _⟩ := hw
  refine ⟨fun c => rfl, ?_, ?_, ?_, ?_⟩
  · intro i hi
    simp only [vector.size] at hi
    have e : (v.end_ : Int) - (i : Int) - 1 = ((v.begin_ + (v.end_ - v.begin_ - 1 - i) : Nat) : Int) := by
      omega
    simp only [reverse_iterator.op_star, reverse_iterator.op_plus, vector.rbegin,
      vector.index, vector.size]
    rw [e, read_natCast]
  · simp only [reverse_iterator.op_plus, vector.rbegin, vector.rend, vector.size,
      reverse_iterator.mk.injEq]
    omega
  · intro i
    induction i with
    | zero => simp [reverse_iterator.op_plus]
    | succ i ih =>
      rw [Function.iterate_succ_apply', ih]
      simp only [reverse_iterator.pre_inc, reverse_iterator.op_plus, reverse_iterator.mk.injEq]
      omega
  · intro fuel hf
    have e : v.end_ = v.begin_ + v.size := by simp only [vector.size]; omega
    have := reverse_walk_spec h v.begin_ v.size fuel hf
    simp only [vector.rbegin, vector.rend]
    rw [e, this, Prod.mk.injEq]
    refine ⟨?_, rfl⟩
    simp only [vector.elems]
    rw [← List.map_reverse]
    apply List.ext_getElem
    · simp
    · intro i h1 h2
      simp only [List.length_map, List.length_range] at h1
      simp [List.getElem_reverse, List.getElem_range]

/-- C12, on the vector `[1, 2, 3]`: the walk from `rbegin()` to `rend()` ends
after 3 steps and yields the elements reversed. -/
theorem reverse_traversal_witness :
    reverse_walk demo_c.1 demo_c.2.rend 3 demo_c.2.rbegin
      = ((demo_c.2.elems demo_c.1).reverse, true) ∧
    demo_c.2.rbegin.op_plus (demo_c.2.size : Int) = demo_c.2.rend :=
  ⟨(reverse_traversal demo_c.1 demo_c.2 (by decide)).2.2.2.2 3 (by decide),
   (reverse_traversal demo_c.1 demo_c.2 (by decide)).2.2.1⟩

/-- C13: reverse-adaptor comparisons are decided by the wrapped cursors alone, in
reversed order: `==` is equality of bases, `a < b` is `b.base() < a.base()`,
`!=` is the negation of `==`, `a > b` is `b < a`, `<=` is `<` or `==`, `>=` is
`>` or `==`, and exactly one of `a < b`, `a == b`, `a > b` holds. -/
theorem reverse_compare (a b : reverse_iterator) :
    (reverse_iterator.op_eq a b = true ↔ a.base = b.base) ∧
    (reverse_iterator.op_lt a b = true ↔ b.base < a.base) ∧
    (reverse_iterator.op_ne a b = true ↔ ¬ reverse_iterator.op_eq a b = true) ∧
    (reverse_iterator.op_gt a b = true ↔ reverse_iterator.op_lt b a = true) ∧
    (reverse_iterator.op_le a b = true ↔
      (reverse_iterator.op_lt a b = true ∨ reverse_iterator.op_eq a b = true)) ∧
    (reverse_iterator.op_ge a b = true ↔
      (reverse_iterator.op_gt a b = true ∨ reverse_iterator.op_eq a b = true)) ∧
    ((reverse_iterator.op_lt a b = true ∧ ¬ reverse_iterator.op_eq a b = true ∧
        ¬ reverse_iterator.op_gt a b = true) ∨
     (¬ reverse_iterator.op_lt a b = true ∧ reverse_iterator.op_eq a b = true ∧
        ¬ reverse_iterator.op_gt a b = true) ∨
     (¬ reverse_iterator.op_lt a b = true ∧ ¬ reverse_iterator.op_eq a b = true ∧
        reverse_iterator.op_gt a b = true)) := by
  have e1 : reverse_iterator.op_eq a b = true ↔ a.current = b.current := by
    simp [reverse_iterator.op_eq, reverse_iterator.base]
  have e2 : reverse_iterator.op_lt a b = true ↔ b.current < a.current := by
    simp [reverse_iterator.op_lt, reverse_iterator.base]
  have e3 : reverse_iterator.op_lt b a = true ↔ a.current < b.current := by
    simp [reverse_iterator.op_lt, reverse_iterator.base]
  have e4 : reverse_iterator.op_gt a b = reverse_iterator.op_lt b a := rfl
  have e5 : reverse_iterator.op_le a b = true ↔ ¬ reverse_iterator.op_lt b a = true := by
    simp [reverse_iterator.op_le]
  have e6 : reverse_iterator.op_ge a b = true ↔ ¬ reverse_iterator.op_lt a b = true := by
    simp [reverse_iterator.op_ge]
  have e7 : reverse_iterator.op_ne a b = true ↔ ¬ reverse_iterator.op_eq a b = true := by
    simp [reverse_iterator.op_ne]
  refine ⟨e1, e2, e7, by rw [e4], ?_, ?_, ?_⟩
  · rw [e5, e3, e2, e1]; omega
  · rw [e6, e4, e3, e2, e1]; omega
  · rw [e4, e3, e2, e1]; omega

/-- C14 as stated fails: on a 64-bit platform with 4-byte elements,
`allocate(2^62)` computes `2^62 * 4 = 2^64`, which wraps to 0 bytes: the handle
is not null, yet the block behind it has room for no element at all. -/
theorem allocate_wraps_counterexample :
    (allocate cfg64 (Heap.empty : Heap Nat) 4611686018427387904).2 = 1 ∧
    (allocate cfg64 (Heap.empty : Heap Nat) 4611686018427387904).1.blocks = [(1, 0)] ∧
    (allocate cfg64 (Heap.empty : Heap Nat) 4611686018427387904).1.brk = 1 ∧
    max_size cfg64 < 4611686018427387904 := by
  decide

theorem alloc_bytes_wraps (c : Cfg) (n : Nat) (hn : max_size c < n) :
    2 ^ c.w ≤ n * c.sizeofT ∧ alloc_bytes c n < n * c.sizeofT := by
  have h1 : 2 ^ c.w - 1 < n * c.sizeofT := (Nat.div_lt_iff_lt_mul c.sizeofT_pos).mp hn
  have h2 : 0 < 2 ^ c.w := Nat.two_pow_pos _
  have h3 : alloc_bytes c n < 2 ^ c.w := Nat.mod_lt _ h2
  omega

/-- C14 amended: `allocate(n)` returns the null handle exactly when `n == 0`; for
`0 < n <= max_size()` it returns a fresh non-null block of `n * sizeof(T)` bytes,
`n` contiguous slots, without initialising anything; for `n > max_size()` the
product `n * sizeof(T)` is at least `2^w`, the byte count it asks for is the
product reduced modulo `2^w`, and the block it returns is smaller than `n`
elements; and `deallocate` of a null pointer leaves the heap as it is. -/
theorem allocate_spec (c : Cfg) (h : Heap α) (n : Nat) :
    ((allocate c h n).2 = nullptr ↔ n = 0) ∧
    (0 < n → n ≤ max_size c →
      (allocate c h n).2 = h.brk + 1 ∧
      (allocate c h n).1.blocks = (h.brk + 1, n * c.sizeofT) :: h.blocks ∧
      (allocate c h n).1.brk = h.brk + 1 + n ∧
      (allocate c h n).1.cell = h.cell) ∧
    (max_size c < n →
      (allocate c h n).2 = h.brk + 1 ∧
      (allocate c h n).1.blocks = (h.brk + 1, alloc_bytes c n) :: h.blocks ∧
      alloc_bytes c n = (n * c.sizeofT) % 2 ^ c.w ∧
      2 ^ c.w ≤ n * c.sizeofT ∧
      alloc_bytes c n < n * c.sizeofT) ∧
    (∀ k, deallocate h nullptr k = h) := by
  refine ⟨?_, ?_, ?_, ?_⟩
  · constructor
    · intro h0
      by_cases hn : n = 0
      · exact hn
      · rw [allocate_ptr c h n hn] at h0
        simp [nullptr] at h0
    · intro hn
      rw [hn, allocate_zero]
  · intro h0 hn
    have hne : n ≠ 0 := by omega
    exact ⟨allocate_ptr c h n hne,
      by simp [allocate, operator_new, hne, alloc_bytes_exact c n hn],
      (allocate_pos c h n h0 hn).2, allocate_cell c h n⟩
  · intro hn
    have hne : n ≠ 0 := by omega
    exact ⟨allocate_ptr c h n hne, by simp [allocate, operator_new, hne], rfl,
      (alloc_bytes_wraps c n hn).1, (alloc_bytes_wraps c n hn).2⟩
  · intro k
    simp [deallocate]

/-- C14 amended, at concrete requests: `allocate(0)` is null, `allocate(3)` is a
fresh 12-byte block, and `allocate(100)` with `max_size() = 63` asks for fewer
bytes than 100 elements take. -/
theorem allocate_spec_witness :
    ((allocate cfg8 (Heap.empty : Heap Nat) 0).2 = nullptr ↔ 0 = 0) ∧
    (allocate cfg8 (Heap.empty : Heap Nat) 3).2 = (Heap.empty : Heap Nat).brk + 1 ∧
    (allocate cfg8 (Heap.empty : Heap Nat) 3).1.blocks
      = ((Heap.empty : Heap Nat).brk + 1, 3 * cfg8.sizeofT) :: (Heap.empty : Heap Nat).blocks ∧
    alloc_bytes cfg8 100 < 100 * cfg8.sizeofT :=
  ⟨(allocate_spec cfg8 (Heap.empty : Heap Nat) 0).1,
   ((allocate_spec cfg8 (Heap.empty : Heap Nat) 3).2.1 (by decide) (by decide)).1,
   ((allocate_spec cfg8 (Heap.empty : Heap Nat) 3).2.1 (by decide) (by decide)).2.1,
   ((allocate_spec cfg8 (Heap.empty : Heap Nat) 100).2.2.1 (by decide)).2.2.2.2⟩

/-- C15, on both paths: with spare capacity (size 1, capacity 3) and without
(`[7, 8]`, capacity 2), `emplace_back(5)` builds 5 in the buffer, but hands no
iterator back: the body ends without a `return`. With spare capacity the cursors
are left as they were, so 5 sits in the slot at `end()` and the slot `end() - 1`
of the vector after the call still holds the old last element 1; on the growth
path 5 sits in the slot `end() - 1` of the regrown vector. -/
theorem emplace_back_returns_nothing :
    (emplace_back cfg8 demo_a.1 demo_a.2 (fun _ => some 5)).2.2 = none ∧
    (emplace_back cfg8 demo_a.1 demo_a.2 (fun _ => some 5)).2.1 = demo_a.2 ∧
    (emplace_back cfg8 demo_a.1 demo_a.2 (fun _ => some 5)).1.cell demo_a.2.end_ = some 5 ∧
    (emplace_back cfg8 demo_a.1 demo_a.2 (fun _ => some 5)).1.cell
      ((emplace_back cfg8 demo_a.1 demo_a.2 (fun _ => some 5)).2.1.end_ - 1) = some 1 ∧
    (emplace_back cfg8 demo_b.1 demo_b.2 (fun _ => some 5)).2.2 = none ∧
    (emplace_back cfg8 demo_b.1 demo_b.2 (fun _ => some 5)).1.cell
      ((emplace_back cfg8 demo_b.1 demo_b.2 (fun _ => some 5)).2.1.end_ - 1) = some 5 := by
  decide

/-- C18: when `capacity() + add_size` does not exceed `max_size()` (and one
element fits at all), `get_new_cap(add_size)` is the larger of
`capacity() + capacity() / 2` and `capacity() + add_size`, raised to at least 1
and cut at `max_size()`; it lies between 1 and `max_size()` and is at least
`capacity() + add_size`. -/
theorem get_new_cap_spec (c : Cfg) (v : vector) (add_size : Nat)
    (hfit : v.capacity + add_size ≤ max_size c) (hone : 1 ≤ max_size c) :
    get_new_cap c v add_size
      = min (max (max (v.capacity + v.capacity / 2) (v.capacity + add_size)) 1) (max_size c) ∧
    (max (v.capacity + v.capacity / 2) (v.capacity + add_size) ≤ max_size c →
      1 ≤ max (v.capacity + v.capacity / 2) (v.capacity + add_size) →
      get_new_cap c v add_size = max (v.capacity + v.capacity / 2) (v.capacity + add_size)) ∧
    1 ≤ get_new_cap c v add_size ∧
    get_new_cap c v add_size ≤ max_size c ∧
    v.capacity + add_size ≤ get_new_cap c v add_size := by
  refine ⟨rfl, ?_, ?_, ?_, ?_⟩
  · intro h1 h2
    unfold get_new_cap
    omega
  · exact (get_new_cap_ge c v add_size hfit hone).2
  · exact get_new_cap_le c v add_size
  · exact (get_new_cap_ge c v add_size hfit hone).1

/-- C18, at a concrete vector: `[7, 8]` with capacity 2 and `add_size = 1` gives 3. -/
theorem get_new_cap_spec_witness :
    get_new_cap cfg8 demo_b.2 1 = 3 ∧ demo_b.2.capacity + 1 ≤ get_new_cap cfg8 demo_b.2 1 :=
  ⟨((get_new_cap_spec cfg8 demo_b.2 1 (by decide) (by decide)).2.1 (by decide) (by decide)).trans
      (by decide),
   (get_new_cap_spec cfg8 demo_b.2 1 (by decide) (by decide)).2.2.2.2⟩

/-- C19, on the vector `[7, 8]` (buffer at slot 7, capacity 2): after
`reserve(10)` the old block is released, yet its two slots still hold live
objects: `reserve` hands the old buffer to `deallocate` without destroying the
moved-from elements. The destructor path does destroy them first. -/
theorem reserve_skips_destroy :
    demo_b.2 = ⟨7, 9, 9⟩ ∧
    (7, 8) ∈ demo_b.1.blocks ∧
    (7, 8) ∉ (reserve cfg8 demo_b.1 demo_b.2 10).2.1.blocks ∧
    (reserve cfg8 demo_b.1 demo_b.2 10).2.1.cell 7 = some 7 ∧
    (reserve cfg8 demo_b.1 demo_b.2 10).2.1.cell 8 = some 8 ∧
    (dtor demo_b.1 demo_b.2).1.cell 7 = none ∧
    (dtor demo_b.1 demo_b.2).1.cell 8 = none := by
  decide

/-- C16 as stated fails: the vector `[1, 2, 3]` (capacity 3) assigned the shorter
list `{9}` ends with the capacity of the freshly built buffer, 1 if `range_init`
allocates exactly the list's length and 16 if it allocates at least 16 slots;
in neither case the old capacity 3. -/
theorem assign_ilist_capacity_counterexample :
    demo_d.2.1.size = 3 ∧ demo_d.2.1.capacity = 3 ∧ demo_d.2.2.size = 1 ∧
    (assign_ilist cfg8 0 demo_d.1 demo_d.2.1 demo_d.2.2.begin_ demo_d.2.2.end_).2.capacity = 1 ∧
    (assign_ilist cfg8 16 demo_d.1 demo_d.2.1 demo_d.2.2.begin_ demo_d.2.2.end_).2.capacity
      = 16 := by
  decide

theorem deallocate_blocks_mem (h : Heap α) (ptr n : Nat) (b : Nat × Nat)
    (hb : b ∈ h.blocks) (hne : b.1 ≠ ptr) : b ∈ (deallocate h ptr n).blocks := by
  unfold deallocate operator_delete
  split
  · exact hb
  · simp only [List.mem_filter]
    exact ⟨hb, by simpa using hne⟩

/-- C16 amended: assigning an initializer list, whatever its length, gives the
vector the list's length and the list's elements in order, in a buffer built for
the list: unless the list is empty and nothing is allocated, `begin()` is the
base of a block newly handed out, the old elements are destroyed and the old
block is released. `capacity()` afterwards is the new buffer's, at least the
list's length and independent of the old capacity (so a list longer than the old
capacity makes `capacity()` grow to at least the list's length). -/
theorem assign_ilist_spec (c : Cfg) (init_cap : Nat) (h : Heap α) (self : vector)
    (ilist_begin ilist_end : Nat)
    (hw : self.wf) (hs : self.end_ ≤ h.brk)
    (hi : ilist_begin ≤ ilist_end) (hib : ilist_end ≤ h.brk) :
    (assign_ilist c init_cap h self ilist_begin ilist_end).2.size = ilist_end - ilist_begin ∧
    (assign_ilist c init_cap h self ilist_begin ilist_end).2.elems
        (assign_ilist c init_cap h self ilist_begin ilist_end).1
      = (List.range (ilist_end - ilist_begin)).map (fun i => h.cell (ilist_begin + i)) ∧
    (assign_ilist c init_cap h self ilist_begin ilist_end).2.capacity
      = max (ilist_end - ilist_begin) init_cap ∧
    ilist_end - ilist_begin ≤ (assign_ilist c init_cap h self ilist_begin ilist_end).2.capacity ∧
    (self.capacity < ilist_end - ilist_begin →
      self.capacity < (assign_ilist c init_cap h self ilist_begin ilist_end).2.capacity) ∧
    (0 < max (ilist_end - ilist_begin) init_cap →
      (assign_ilist c init_cap h self ilist_begin ilist_end).2.begin_ = h.brk + 1 ∧
      (assign_ilist c init_cap h self ilist_begin ilist_end).2.begin_ ≠ self.begin_ ∧
      (h.brk + 1, alloc_bytes c (max (ilist_end - ilist_begin) init_cap))
        ∈ (assign_ilist c init_cap h self ilist_begin ilist_end).1.blocks) ∧
    (self.begin_ ≠ nullptr →
      ∀ b, b ∈ (assign_ilist c init_cap h self ilist_begin ilist_end).1.blocks →
        b.1 ≠ self.begin_) ∧
    (∀ p, self.begin_ ≤ p → p < self.end_ → p ≠ nullptr →
      (assign_ilist c init_cap h self ilist_begin ilist_end).1.cell p = none) := by
  obtain ⟨hw1, hw2⟩ := hw
  have hsz : (assign_ilist c init_cap h self ilist_begin ilist_end).2.size
      = ilist_end - ilist_begin := by
    simp [assign_ilist, range_init, vector.swap, vector.size]
  have hcap : (assign_ilist c init_cap h self ilist_begin ilist_end).2.capacity
      = max (ilist_end - ilist_begin) init_cap := by
    simp [assign_ilist, range_init, vector.swap, vector.capacity]
  refine ⟨hsz, ?_, hcap, by rw [hcap]; omega, fun hlt => by rw [hcap]; omega, ?_, ?_, ?_⟩
  · unfold vector.elems
    rw [hsz]
    apply List.map_congr_left
    intro i hi'
    have hlt := List.mem_range.mp hi'
    have h0 : max (ilist_end - ilist_begin) init_cap ≠ 0 := by omega
    have hp := allocate_ptr c h _ h0
    have hc := allocate_cell c h (max (ilist_end - ilist_begin) init_cap)
    simp only [assign_ilist, range_init, uninitialized_copy, vector.swap, dtor,
      destroy_and_recover, destroy_range, deallocate_cell, hp]
    rw [destroy_cat_outside _ _ _ _ (by omega), copy_cells_inside _ _ _ _ _ (by omega) hlt, hc]
  · intro hpos
    have h0 : max (ilist_end - ilist_begin) init_cap ≠ 0 := by omega
    have hp := allocate_ptr c h _ h0
    have hbeg : (assign_ilist c init_cap h self ilist_begin ilist_end).2.begin_ = h.brk + 1 := by
      simp only [assign_ilist, range_init, vector.swap, hp]
    refine ⟨hbeg, by rw [hbeg]; omega, ?_⟩
    simp only [assign_ilist, range_init, uninitialized_copy, vector.swap, dtor,
      destroy_and_recover, destroy_range]
    apply deallocate_blocks_mem
    · rw [destroy_cat_blocks, copy_cells_blocks]
      simp [allocate, operator_new, h0]
    · show h.brk + 1 ≠ self.begin_
      omega
  · intro h0 b hb
    simp only [assign_ilist, range_init, uninitialized_copy, vector.swap, dtor,
      destroy_and_recover] at hb
    exact deallocate_blocks _ _ _ h0 b hb
  · intro p h1 h2 h0
    simp only [assign_ilist, range_init, uninitialized_copy, vector.swap, dtor,
      destroy_and_recover, destroy_range, deallocate_cell]
    exact destroy_cat_inside _ _ _ _ h1 (by omega) h0

/-- C16 amended, on `[1, 2, 3]` assigned `{9}`: size 1, the element 9, in a
buffer based just above the old break, and no block is left at the old
`begin()`. -/
theorem assign_ilist_spec_witness :
    (assign_ilist cfg8 0 demo_d.1 demo_d.2.1 demo_d.2.2.begin_ demo_d.2.2.end_).2.size
      = demo_d.2.2.end_ - demo_d.2.2.begin_ ∧
    (assign_ilist cfg8 0 demo_d.1 demo_d.2.1 demo_d.2.2.begin_ demo_d.2.2.end_).2.elems
        (assign_ilist cfg8 0 demo_d.1 demo_d.2.1 demo_d.2.2.begin_ demo_d.2.2.end_).1
      = (List.range (demo_d.2.2.end_ - demo_d.2.2.begin_)).map
          (fun i => demo_d.1.cell (demo_d.2.2.begin_ + i)) ∧
    (assign_ilist cfg8 0 demo_d.1 demo_d.2.1 demo_d.2.2.begin_ demo_d.2.2.end_).2.begin_
      = demo_d.1.brk + 1 ∧
    (∀ b, b ∈ (assign_ilist cfg8 0 demo_d.1 demo_d.2.1 demo_d.2.2.begin_
        demo_d.2.2.end_).1.blocks → b.1 ≠ demo_d.2.1.begin_) :=
  ⟨(assign_ilist_spec cfg8 0 demo_d.1 demo_d.2.1 demo_d.2.2.begin_ demo_d.2.2.end_
      (by decide) (by decide) (by decide) (by decide)).1,
   (assign_ilist_spec cfg8 0 demo_d.1 demo_d.2.1 demo_d.2.2.begin_ demo_d.2.2.end_
      (by decide) (by decide) (by decide) (by decide)).2.1,
   ((assign_ilist_spec cfg8 0 demo_d.1 demo_d.2.1 demo_d.2.2.begin_ demo_d.2.2.end_
      (by decide) (by decide) (by decide) (by decide)).2.2.2.2.2.1 (by decide)).1,
   (assign_ilist_spec cfg8 0 demo_d.1 demo_d.2.1 demo_d.2.2.begin_ demo_d.2.2.end_
      (by decide) (by decide) (by decide) (by decide)).2.2.2.2.2.2.1 (by decide)⟩

theorem copy_cells_inside_left (n : Nat) (h : Heap α) (src dst i : Nat)
    (hd : dst ≤ src) (hi : i < n) :
    (copy_cells n h src dst).cell (dst + i) = h.cell (src + i) := by
  induction n generalizing h src dst i with
  | zero => omega
  | succ n ih =>
    rw [copy_cells]
    cases i with
    | zero =>
      rw [copy_cells_outside _ _ _ _ _ (by omega)]
      simp
    | succ i =>
      have e1 : dst + (i + 1) = dst + 1 + i := by omega
      have e2 : src + (i + 1) = src + 1 + i := by omega
      rw [e1, e2, ih _ _ _ _ (by omega) (by omega)]
      exact store_cell_other _ _ _ _ (by omega)

/-- The modelled `erase(first, last)` on a well-formed vector: the slots before
`first` are kept, the tail moves left by `last - first`, the size drops by
`last - first`, and `begin_` and `cap_` are untouched. -/
theorem erase_range_spec (h : Heap α) (v : vector) (first last : Nat)
    (hw : v.wf) (h1 : v.begin_ ≤ first) (h2 : first ≤ last) (h3 : last ≤ v.end_) :
    (erase_range h v first last).2.1.size = v.size - (last - first) ∧
    (erase_range h v first last).2.1.capacity = v.capacity ∧
    (erase_range h v first last).2.1.begin_ = v.begin_ ∧
    (erase_range h v first last).2.2 = first ∧
    (∀ i, i < first - v.begin_ →
      (erase_range h v first last).1.cell (v.begin_ + i) = h.cell (v.begin_ + i)) ∧
    (∀ i, first - v.begin_ ≤ i → i < v.size - (last - first) →
      (erase_range h v first last).1.cell (v.begin_ + i)
        = h.cell (v.begin_ + i + (last - first))) := by
  obtain ⟨hw1, hw2⟩ := hw
  simp only [erase_range, destroy_range, vector.size, vector.capacity]
  refine ⟨by omega, trivial, trivial, by omega, ?_, ?_⟩
  · intro i hi
    rw [destroy_cat_outside _ _ _ _ (by omega), copy_cells_outside _ _ _ _ _ (by omega)]
  · intro i hi1 hi2
    obtain ⟨j, rfl⟩ : ∃ j, i = (first - v.begin_) + j := ⟨i - (first - v.begin_), by omega⟩
    have e : v.begin_ + (first - v.begin_ + j) = v.begin_ + (first - v.begin_) + j := by omega
    rw [destroy_cat_outside _ _ _ _ (by omega), e,
      copy_cells_inside_left _ _ _ _ _ (by omega) (by omega)]
    congr 1
    omega

/-- C17, on the vector `[1, 2, 3]` (capacity 3): `erase(begin()+1, begin()+2)`
leaves `[1, 3]` with size 2 and capacity 3, as claimed; re-inserting the erased
value 2 at `begin()+1` with `insert(pos, value)` then leaves size 2 and the
elements `[1, 2]`, not `[1, 2, 3]`. -/
theorem erase_reinsert_loses_last :
    demo_c.2 = ⟨6, 9, 9⟩ ∧
    (erase_range demo_c.1 demo_c.2 7 8).2.1 = ⟨6, 8, 9⟩ ∧
    vector.elems (erase_range demo_c.1 demo_c.2 7 8).1 ⟨6, 8, 9⟩ = [some 1, some 3] ∧
    (insert cfg8 (erase_range demo_c.1 demo_c.2 7 8).1 ⟨6, 8, 9⟩ 7 2).2.1.size = 2 ∧
    vector.elems (insert cfg8 (erase_range demo_c.1 demo_c.2 7 8).1 ⟨6, 8, 9⟩ 7 2).1
        (insert cfg8 (erase_range demo_c.1 demo_c.2 7 8).1 ⟨6, 8, 9⟩ 7 2).2.1
      = [some 1, some 2] := by
  decide

theorem distance_loop_spec (k fuel : Nat) (first n : Int) (hf : k ≤ fuel) :
    distance_loop fuel first (first + k) n = some (n + k) := by
  induction k generalizing fuel first n with
  | zero =>
    cases fuel with
    | zero => simp [distance_loop]
    | succ f => simp [distance_loop]
  | succ k ih =>
    cases fuel with
    | zero => omega
    | succ f =>
      have hne : first ≠ first + ((k + 1 : Nat) : Int) := by omega
      have e : first + ((k + 1 : Nat) : Int) = (first + 1) + (k : Int) := by omega
      rw [distance_loop, if_pos hne, e, ih f (first + 1) (n + 1) (by omega)]
      congr 1
      omega

theorem distance_loop_short (fuel k : Nat) (first n : Int) (hf : fuel < k) :
    distance_loop fuel first (first + k) n = none := by
  induction fuel generalizing k first n with
  | zero =>
    have hne : first ≠ first + (k : Int) := by omega
    rw [distance_loop, if_pos hne]
  | succ f ih =>
    have hne : first ≠ first + (k : Int) := by omega
    obtain ⟨j, rfl⟩ : ∃ j, k = j + 1 := ⟨k - 1, by omega⟩
    have e : first + ((j + 1 : Nat) : Int) = (first + 1) + (j : Int) := by omega
    rw [distance_loop, if_pos hne, e, ih j (first + 1) (n + 1) (by omega)]

/-- C21: for pointer cursors `first <= last`, the stepping loop of the
input-tier `distance_dispatch` stops (after exactly `last - first` iterations:
any larger fuel gives the result, any smaller one does not) and returns what the
random-access tier returns, `last - first`, which is not negative. -/
theorem distance_tiers_agree (first last : Int) (hle : first ≤ last) :
    (∀ fuel, (last - first).toNat ≤ fuel →
      distance_dispatch_input fuel first last = some (distance_dispatch_random first last)) ∧
    (∀ fuel, fuel < (last - first).toNat → distance_dispatch_input fuel first last = none) ∧
    distance_dispatch_random first last = last - first ∧
    distance first last = last - first ∧
    0 ≤ distance_dispatch_random first last := by
  have e : last = first + ((last - first).toNat : Int) := by omega
  refine ⟨?_, ?_, rfl, rfl, ?_⟩
  · intro fuel hf
    have := distance_loop_spec (last - first).toNat fuel first 0 hf
    rw [← e] at this
    rw [distance_dispatch_input, this, distance_dispatch_random]
    congr 1
    omega
  · intro fuel hf
    have := distance_loop_short fuel (last - first).toNat first 0 hf
    rw [← e] at this
    rw [distance_dispatch_input, this]
  · simp only [distance_dispatch_random]
    omega

/-- C21, from slot 3 to slot 8: five steps are enough and give 5, four are not. -/
theorem distance_tiers_agree_witness :
    distance_dispatch_input 5 3 8 = some (distance_dispatch_random 3 8) ∧
    distance_dispatch_input 4 3 8 = none ∧
    distance_dispatch_random 3 8 = 8 - 3 :=
  ⟨(distance_tiers_agree 3 8 (by decide)).1 5 (by decide),
   (distance_tiers_agree 3 8 (by decide)).2.1 4 (by decide),
   (distance_tiers_agree 3 8 (by decide)).2.2.1⟩

theorem advance_input_loop_spec (m fuel : Nat) (i : Int) (k : Nat) (hf : m ≤ fuel) :
    advance_input_loop fuel i (m : Int) k = some (i + m, k + m) := by
  induction m generalizing fuel i k with
  | zero =>
    cases fuel with
    | zero => simp [advance_input_loop]
    | succ f => simp [advance_input_loop]
  | succ m ih =>
    cases fuel with
    | zero => omega
    | succ f =>
      have hne : ((m + 1 : Nat) : Int) ≠ 0 := by omega
      have e : ((m + 1 : Nat) : Int) - 1 = (m : Int) := by omega
      rw [advance_input_loop, if_pos hne, e, ih f (i + 1) (k + 1) (by omega)]
      congr 2
      · omega
      · omega

theorem advance_up_loop_spec (m fuel : Nat) (i : Int) (k : Nat) (hf : m ≤ fuel) :
    advance_up_loop fuel i (m : Int) k = some (i + m, k + m) := by
  induction m generalizing fuel i k with
  | zero =>
    cases fuel with
    | zero => simp [advance_up_loop]
    | succ f => simp [advance_up_loop]
  | succ m ih =>
    cases fuel with
    | zero => omega
    | succ f =>
      have hpos : ((m + 1 : Nat) : Int) > 0 := by omega
      have e : ((m + 1 : Nat) : Int) - 1 = (m : Int) := by omega
      rw [advance_up_loop, if_pos hpos, e, ih f (i + 1) (k + 1) (by omega)]
      congr 2
      · omega
      · omega

theorem advance_down_loop_spec (m fuel : Nat) (i : Int) (k : Nat) (hf : m ≤ fuel) :
    advance_down_loop fuel i (-(m : Int)) k = some (i - m, k + m) := by
  induction m generalizing fuel i k with
  | zero =>
    cases fuel with
    | zero => simp [advance_down_loop]
    | succ f => simp [advance_down_loop]
  | succ m ih =>
    cases fuel with
    | zero => omega
    | succ f =>
      have hneg : -((m + 1 : Nat) : Int) < 0 := by omega
      have e : -((m + 1 : Nat) : Int) + 1 = -(m : Int) := by omega
      rw [advance_down_loop, if_pos hneg, e, ih f (i - 1) (k + 1) (by omega)]
      congr 2
      · omega
      · omega

/-- C22: for `n >= 0` the input-tier loop and the bidirectional-tier loop of
`advance_dispatch` stop after `n` increments with the cursor at `i + n`, where
the random-access tier puts it; for `n < 0` the bidirectional-tier loop stops
after exactly `-n` decrements with the cursor at `i + n`, again the
random-access result. -/
theorem advance_tiers_agree (i n : Int) :
    (0 ≤ n → ∀ fuel, n.toNat ≤ fuel →
      advance_dispatch_input fuel i n = some (i + n, n.toNat) ∧
      advance_dispatch_bidirectional fuel i n = some (i + n, n.toNat)) ∧
    advance_dispatch_random i n = i + n ∧
    advance i n = i + n ∧
    (n < 0 → ∀ fuel, (-n).toNat ≤ fuel →
      advance_dispatch_bidirectional fuel i n
        = some (advance_dispatch_random i n, (-n).toNat)) := by
  refine ⟨?_, rfl, rfl, ?_⟩
  · intro h0 fuel hf
    have e : n = ((n.toNat : Nat) : Int) := by omega
    have h1 := advance_input_loop_spec n.toNat fuel i 0 hf
    have h2 := advance_up_loop_spec n.toNat fuel i 0 hf
    rw [← e] at h1 h2
    have hge : n ≥ 0 := h0
    simp only [advance_dispatch_input, advance_dispatch_bidirectional, if_pos hge, h1, h2,
      Nat.zero_add, and_self]
  · intro hneg fuel hf
    have e : n = -(((-n).toNat : Nat) : Int) := by omega
    have h1 := advance_down_loop_spec (-n).toNat fuel i 0 hf
    rw [← e] at h1
    have hge : ¬ n ≥ 0 := by omega
    simp only [advance_dispatch_bidirectional, if_neg hge, h1, advance_dispatch_random,
      Nat.zero_add]
    congr 2
    omega

/-- C22, from slot 10: three steps forward reach 13 on both stepping tiers,
three steps backward reach 7 on the bidirectional tier. -/
theorem advance_tiers_agree_witness :
    advance_dispatch_input 3 10 3 = some (10 + 3, (3 : Int).toNat) ∧
    advance_dispatch_bidirectional 3 10 3 = some (10 + 3, (3 : Int).toNat) ∧
    advance_dispatch_bidirectional 3 10 (-3)
      = some (advance_dispatch_random 10 (-3), (-(-3 : Int)).toNat) :=
  ⟨((advance_tiers_agree 10 3).1 (by decide) 3 (by decide)).1,
   ((advance_tiers_agree 10 3).1 (by decide) 3 (by decide)).2,
   (advance_tiers_agree 10 (-3)).2.2.2 (by decide) 3 (by decide)⟩

/-- C25: `max_size()` is `(2^w - 1) / sizeof(T)`, rounded down; for every
`n <= max_size()` the product `n * sizeof(T)` is at most `2^w - 1`, so the byte
count `allocate(n)` computes is the exact product; and whenever `reserve(n)`
reaches its allocation and returns normally, `n` has passed the length check
and the byte count it asked for did not wrap. -/
theorem max_size_no_wrap (c : Cfg) (h : Heap α) (v : vector) (n : Nat) :
    max_size c = (2 ^ c.w - 1) / c.sizeofT ∧
    (n ≤ max_size c → n * c.sizeofT ≤ 2 ^ c.w - 1 ∧ alloc_bytes c n = n * c.sizeofT) ∧
    (v.capacity < n → (reserve c h v n).1 = Except.ok () →
      n ≤ max_size c ∧ alloc_bytes c n = n * c.sizeofT ∧
      (allocate c h n).1.blocks = (h.brk + 1, n * c.sizeofT) :: h.blocks) := by
  have key : n ≤ max_size c → n * c.sizeofT ≤ 2 ^ c.w - 1 ∧ alloc_bytes c n = n * c.sizeofT := by
    intro hn
    refine ⟨?_, alloc_bytes_exact c n hn⟩
    have h1 : n * c.sizeofT ≤ (2 ^ c.w - 1) / c.sizeofT * c.sizeofT :=
      Nat.mul_le_mul_right _ hn
    have h2 : (2 ^ c.w - 1) / c.sizeofT * c.sizeofT ≤ 2 ^ c.w - 1 := Nat.div_mul_le_self _ _
    omega
  refine ⟨rfl, key, ?_⟩
  intro hlt hok
  have hn : n ≤ max_size c := by
    by_cases hn : n ≤ max_size c
    · exact hn
    · rw [reserve_throw c h v n hlt (by omega)] at hok
      cases hok
  have hne : n ≠ 0 := by omega
  exact ⟨hn, (key hn).2, by simp [allocate, operator_new, hne, (key hn).2]⟩

/-- C25, at a concrete request: with 8-bit `size_type` and 4-byte elements,
`max_size()` is 63 and `allocate(63)` computes 252 bytes, within 255. -/
theorem max_size_no_wrap_witness :
    max_size cfg8 = (2 ^ cfg8.w - 1) / cfg8.sizeofT ∧
    63 * cfg8.sizeofT ≤ 2 ^ cfg8.w - 1 ∧
    alloc_bytes cfg8 63 = 63 * cfg8.sizeofT :=
  ⟨(max_size_no_wrap cfg8 demo_a.1 demo_a.2 63).1,
   ((max_size_no_wrap cfg8 demo_a.1 demo_a.2 63).2.1 (by decide)).1,
   ((max_size_no_wrap cfg8 demo_a.1 demo_a.2 63).2.1 (by decide)).2⟩

/-- C26: for every reverse adaptor `r` and every integer `n`,
`(r + n).base() == r.base() - n`, `(r + n) - r == n`, `(r + n) - n == r`, `+=`
and `-=` move like `+` and `-`, `++` followed by `--` (and `--` followed by `++`)
returns to `r`; and for every well-formed vector `rend() - rbegin() == size()`. -/
theorem reverse_arithmetic (r : reverse_iterator) (n : Int) (v : vector) (hw : v.wf) :
    (r.op_plus n).base = r.base - n ∧
    reverse_iterator.op_diff (r.op_plus n) r = n ∧
    (r.op_plus n).op_minus n = r ∧
    r.op_plus_assign n = r.op_plus n ∧
    r.op_minus_assign n = r.op_minus n ∧
    r.pre_inc.pre_dec = r ∧
    r.pre_dec.pre_inc = r ∧
    reverse_iterator.op_diff v.rend v.rbegin = (v.size : Int) := by
  obtain ⟨hw1, _⟩ := hw
  refine ⟨rfl, ?_, ?_, rfl, rfl, ?_, ?_, ?_⟩
  · simp only [reverse_iterator.op_diff, reverse_iterator.op_plus, reverse_iterator.base]
    omega
  · cases r with
    | mk cur =>
      simp only [reverse_iterator.op_plus, reverse_iterator.op_minus, reverse_iterator.mk.injEq]
      omega
  · cases r with
    | mk cur =>
      simp only [reverse_iterator.pre_inc, reverse_iterator.pre_dec, reverse_iterator.mk.injEq]
      omega
  · cases r with
    | mk cur =>
      simp only [reverse_iterator.pre_inc, reverse_iterator.pre_dec, reverse_iterator.mk.injEq]
      omega
  · simp only [reverse_iterator.op_diff, reverse_iterator.base, vector.rbegin, vector.rend,
      vector.size]
    omega

/-- C26, on the vector `[1, 2, 3]`: `rend() - rbegin()` is 3, and moving
`rbegin()` by 2 and back returns to it. -/
theorem reverse_arithmetic_witness :
    reverse_iterator.op_diff demo_c.2.rend demo_c.2.rbegin = (demo_c.2.size : Int) ∧
    (demo_c.2.rbegin.op_plus 2).op_minus 2 = demo_c.2.rbegin ∧
    reverse_iterator.op_diff (demo_c.2.rbegin.op_plus 2) demo_c.2.rbegin = 2 :=
  ⟨(reverse_arithmetic demo_c.2.rbegin 2 demo_c.2 (by decide)).2.2.2.2.2.2.2,
   (reverse_arithmetic demo_c.2.rbegin 2 demo_c.2 (by decide)).2.2.1,
   (reverse_arithmetic demo_c.2.rbegin 2 demo_c.2 (by decide)).2.1⟩

/-- C1, through the write `++end()` of a returned value: on the vector `[1]`
with capacity 3, `push_back(5)` constructs 5 in the slot at `end()` but leaves
the cursors as they were, so `size()` is still 1; and starting from the empty
vector, the pushes 1, .., 6 (the sixth finds spare capacity) end with size 5 and
the elements `[1, 2, 3, 4, 5]`. -/
theorem push_back_spare_keeps_end :
    demo_a.2 = ⟨1, 2, 4⟩ ∧
    (push_back cfg8 demo_a.1 demo_a.2 5).2 = ⟨1, 2, 4⟩ ∧
    (push_back cfg8 demo_a.1 demo_a.2 5).2.size = 1 ∧
    (push_back cfg8 demo_a.1 demo_a.2 5).1.cell 2 = some 5 ∧
    (push_back_all cfg8 (try_init (Heap.empty : Heap Nat)) [1, 2, 3, 4, 5, 6]).2.size = 5 ∧
    (push_back_all cfg8 (try_init (Heap.empty : Heap Nat)) [1, 2, 3, 4, 5, 6]).2.elems
        (push_back_all cfg8 (try_init (Heap.empty : Heap Nat)) [1, 2, 3, 4, 5, 6]).1
      = [some 1, some 2, some 3, some 4, some 5] := by
  decide

/-- C4, in the branch `a.size() < b.size() <= a.capacity()`: the vector `[1]`
with capacity 3 assigned from `[7, 8]` has both values copied into its buffer,
but `end() = begin() + len` stores nothing: its cursors end as `<1, 2, 2>`, its
size is 1 and it holds `[7]`, not `[7, 8]`. -/
theorem copy_assign_keeps_size :
    demo_a.2.elems demo_b.1 = [some 1] ∧
    demo_b.2.elems demo_b.1 = [some 7, some 8] ∧
    (copy_assign cfg8 0 demo_b.1 demo_a.2 demo_b.2 false).2 = ⟨1, 2, 2⟩ ∧
    (copy_assign cfg8 0 demo_b.1 demo_a.2 demo_b.2 false).2.size = 1 ∧
    (copy_assign cfg8 0 demo_b.1 demo_a.2 demo_b.2 false).2.elems
        (copy_assign cfg8 0 demo_b.1 demo_a.2 demo_b.2 false).1 = [some 7] ∧
    (copy_assign cfg8 0 demo_b.1 demo_a.2 demo_b.2 false).1.cell 2 = some 8 := by
  decide

/-- C5, on a source that fits: the vector `[1]` with capacity 3 assigned from
`[7, 8]` keeps its block and its `begin_`, but `cap_ = end()` lowers the limit
cursor inside the unchanged block: `capacity()` goes from 3 to 1. -/
theorem copy_assign_shrinks_capacity :
    demo_b.2.size ≤ demo_a.2.capacity ∧
    demo_a.2.capacity = 3 ∧
    (copy_assign cfg8 0 demo_b.1 demo_a.2 demo_b.2 false).2.begin_ = demo_a.2.begin_ ∧
    (copy_assign cfg8 0 demo_b.1 demo_a.2 demo_b.2 false).1.blocks = demo_b.1.blocks ∧
    (copy_assign cfg8 0 demo_b.1 demo_a.2 demo_b.2 false).2.capacity = 1 := by
  decide

/-- C6, on the vector `[1, 2, 3]`: the move constructor gives the new vector the
three cursors, but of the source only `cap_` is nulled: the source ends as
`<6, 9, 0>`, still of size 3, not empty, and still holding `[1, 2, 3]` in the
buffer the new vector now also refers to. -/
theorem move_ctor_keeps_source :
    demo_c.2 = ⟨6, 9, 9⟩ ∧
    (move_ctor demo_c.1 demo_c.2).2.1 = ⟨6, 9, 9⟩ ∧
    (move_ctor demo_c.1 demo_c.2).2.2 = ⟨6, 9, 0⟩ ∧
    (move_ctor demo_c.1 demo_c.2).2.2.size = 3 ∧
    (move_ctor demo_c.1 demo_c.2).2.2.empty = false ∧
    (move_ctor demo_c.1 demo_c.2).2.2.elems (move_ctor demo_c.1 demo_c.2).1
      = [some 1, some 2, some 3] := by
  decide

/-- C7, with `[7, 8]` move-assigned to the vector `[1]`: the destination's
element is destroyed and its block released, but only `cap_` is taken over: the
destination ends as `<1, 2, 9>`, referring to its released block and holding
none of the source's elements, and the source ends as `<7, 9, 0>`, still of
size 2. -/
theorem move_assign_keeps_cursors :
    demo_a.2 = ⟨1, 2, 4⟩ ∧ demo_b.2 = ⟨7, 9, 9⟩ ∧
    (move_assign demo_b.1 demo_a.2 demo_b.2).2.1 = ⟨1, 2, 9⟩ ∧
    (move_assign demo_b.1 demo_a.2 demo_b.2).2.1.elems (move_assign demo_b.1 demo_a.2 demo_b.2).1
      = [none] ∧
    (1, 12) ∉ (move_assign demo_b.1 demo_a.2 demo_b.2).1.blocks ∧
    (move_assign demo_b.1 demo_a.2 demo_b.2).2.2 = ⟨7, 9, 0⟩ ∧
    (move_assign demo_b.1 demo_a.2 demo_b.2).2.2.size = 2 := by
  decide

/-- C8, on the vector `[1]` with capacity 3 (block at slot 1): `reserve(10)`
returns normally, allocates a 40-byte block at slot 5, moves the element there
and releases the old block, but never adopts the new one: the cursors end as
`<1, 2, 11>`, so `capacity()` reports 10 over a released block while the block
that holds the element is referred to by nothing. -/
theorem reserve_keeps_old_block :
    demo_a.2 = ⟨1, 2, 4⟩ ∧ demo_a.1.blocks = [(1, 12)] ∧
    (reserve cfg8 demo_a.1 demo_a.2 10).1 = Except.ok () ∧
    (reserve cfg8 demo_a.1 demo_a.2 10).2.2 = ⟨1, 2, 11⟩ ∧
    (reserve cfg8 demo_a.1 demo_a.2 10).2.2.capacity = 10 ∧
    (reserve cfg8 demo_a.1 demo_a.2 10).2.1.blocks = [(5, 40)] ∧
    (reserve cfg8 demo_a.1 demo_a.2 10).2.1.cell 5 = some 1 :=
  ⟨by decide, by decide, rfl, by decide, by decide, by decide, by decide⟩

/-- C11, on the vectors a move leaves behind: `[1, 2, 3]` satisfies
`begin_ <= end_ <= cap_`; after move construction from it the source is
`<6, 9, 0>`, and after move-assigning `[7, 8]` to another vector the source is
`<7, 9, 0>`: in both `end_ <= cap_` fails. The assigned vector can lose the
ordering too: `[7, 8]` move-assigned from the vector `[1]` with capacity 3 ends
as `<7, 9, 4>`. -/
theorem move_breaks_cursor_order :
    demo_c.2.wf ∧
    (move_ctor demo_c.1 demo_c.2).2.2 = ⟨6, 9, 0⟩ ∧
    ¬ (move_ctor demo_c.1 demo_c.2).2.2.wf ∧
    demo_a.2.wf ∧ demo_b.2.wf ∧
    (move_assign demo_b.1 demo_a.2 demo_b.2).2.2 = ⟨7, 9, 0⟩ ∧
    ¬ (move_assign demo_b.1 demo_a.2 demo_b.2).2.2.wf ∧
    (move_assign demo_b.1 demo_b.2 demo_a.2).2.1 = ⟨7, 9, 4⟩ ∧
    ¬ (move_assign demo_b.1 demo_b.2 demo_a.2).2.1.wf := by
  decide

/-- C23, on the non-empty vector `[1]` with capacity 3: `pop_back()` destroys
the element but `--end()` stores nothing, so the cursors and `size()` are
unchanged and the live range holds a destroyed slot; and `push_back(5)` followed
by `pop_back()` destroys the original element 1 instead of the pushed 5. -/
theorem pop_back_keeps_size :
    demo_a.2.empty = false ∧ demo_a.2.size = 1 ∧
    (pop_back demo_a.1 demo_a.2).2 = demo_a.2 ∧
    (pop_back demo_a.1 demo_a.2).2.size = 1 ∧
    (pop_back demo_a.1 demo_a.2).2.elems (pop_back demo_a.1 demo_a.2).1 = [none] ∧
    demo_a.2.elems demo_a.1 = [some 1] ∧
    (pop_back (push_back cfg8 demo_a.1 demo_a.2 5).1 (push_back cfg8 demo_a.1 demo_a.2 5).2).2.elems
        (pop_back (push_back cfg8 demo_a.1 demo_a.2 5).1 (push_back cfg8 demo_a.1 demo_a.2 5).2).1
      = [none] ∧
    (pop_back (push_back cfg8 demo_a.1 demo_a.2 5).1 (push_back cfg8 demo_a.1 demo_a.2 5).2).1.cell 2
      = some 5 := by
  decide

/-- C24, with spare capacity and `pos == end()`: on the vector `[1]` with
capacity 3, `insert(end(), 5)` and `emplace(end(), 5)` build 5 in the slot at
`end()` and return `begin() + n`, which is that slot; but `++end()` stores
nothing, so `end()` after the call is still that slot and the iterator returned
is `end()` itself, outside `[begin(), end())`. -/
theorem insert_end_returns_end :
    demo_a.2 = ⟨1, 2, 4⟩ ∧
    (insert cfg8 demo_a.1 demo_a.2 demo_a.2.end_ 5).2.2 = 2 ∧
    (insert cfg8 demo_a.1 demo_a.2 demo_a.2.end_ 5).2.1.end_ = 2 ∧
    (insert cfg8 demo_a.1 demo_a.2 demo_a.2.end_ 5).1.cell 2 = some 5 ∧
    (emplace cfg8 demo_a.1 demo_a.2 demo_a.2.end_ (fun _ => some 5)).2.2 = 2 ∧
    (emplace cfg8 demo_a.1 demo_a.2 demo_a.2.end_ (fun _ => some 5)).2.1.end_ = 2 := by
  decide

end mystl
